import Mathlib

/-!
Verification of the indexing core of the ai-copy-paste repository
(src-tauri/src: gitignore.rs, db/schema.rs, commands/indexing.rs and the
refactored copies in commands/indexing_persistence.rs /
commands/indexing_traversal.rs).

The durable `files` table is modeled as a list of rows, SQL statements as the
list transformations they perform, and Rust strings as Lean strings whose
operations are re-implemented structurally on the underlying character lists
(so concrete instances reduce inside the kernel).  External crates are
modeled at their interfaces: SQLite transactions as a commit-or-nothing step
with an explicit failure oracle, the `regex` crate as an abstract compile
function, and the `ignore` crate's compiled globs as the match semantics of
the concrete pattern shapes exercised by the claims.
-/

/-! ## Character and string primitives

Rust `str` operations used by the indexing code, re-implemented on the
character list underlying a Lean `String`.  Lowercasing is ASCII (the inputs
exercised by the spec are ASCII; Rust `to_lowercase` agrees there). -/

/-- ASCII lowercasing of one character, as `str::to_lowercase` acts on ASCII. -/
def lowerChar (c : Char) : Char :=
  match c with
  | 'A' => 'a' | 'B' => 'b' | 'C' => 'c' | 'D' => 'd' | 'E' => 'e' | 'F' => 'f'
  | 'G' => 'g' | 'H' => 'h' | 'I' => 'i' | 'J' => 'j' | 'K' => 'k' | 'L' => 'l'
  | 'M' => 'm' | 'N' => 'n' | 'O' => 'o' | 'P' => 'p' | 'Q' => 'q' | 'R' => 'r'
  | 'S' => 's' | 'T' => 't' | 'U' => 'u' | 'V' => 'v' | 'W' => 'w' | 'X' => 'x'
  | 'Y' => 'y' | 'Z' => 'z'
  | other => other

/-- `str::to_lowercase`. -/
def lowerStr (s : String) : String := ⟨s.data.map lowerChar⟩

/-- Contiguous-sublist test: does `needle` occur contiguously inside `hay`? -/
def listContains (needle : List Char) : List Char → Bool
  | [] => needle.isPrefixOf []
  | c :: rest => needle.isPrefixOf (c :: rest) || listContains needle rest

/-- `str::contains` for literal needles: substring containment. -/
def strContainsSub (hay needle : String) : Bool := listContains needle.data hay.data

/-- Rust `str::starts_with`. -/
def strStartsWith (s pre : String) : Bool := pre.data.isPrefixOf s.data

/-- Lexicographic order on character lists by code point; on UTF-8 encoded
strings this coincides with Rust's byte-wise `Ord` for `String`. -/
def lexLe : List Char → List Char → Bool
  | [], _ => true
  | _ :: _, [] => false
  | a :: as, b :: bs =>
    if a.toNat < b.toNat then true
    else if b.toNat < a.toNat then false
    else lexLe as bs

/-- ASCII whitespace (the whitespace appearing in the modeled queries). -/
def isWsp (c : Char) : Bool := c = ' ' || c = '\t' || c = '\n' || c = '\r'

/-- Maximal runs of characters not satisfying `p`, in order, dropping empty
runs: the combined effect of `trim` plus `split_whitespace` (for `p` =
whitespace) and of splitting a path on its separator.  The second argument
accumulates the current run in reverse. -/
def splitNonempty (p : Char → Bool) : List Char → List Char → List (List Char)
  | [], cur => if cur.isEmpty then [] else [cur.reverse]
  | c :: cs, cur =>
    if p c then
      if cur.isEmpty then splitNonempty p cs []
      else cur.reverse :: splitNonempty p cs []
    else splitNonempty p cs (c :: cur)

/-- `normalize_path` (commands/indexing.rs line 56): every backslash becomes a
forward slash. -/
def normalizePath (s : String) : String :=
  ⟨s.data.map (fun c => if c = '\\' then '/' else c)⟩

/-- `Path::new(s).components().count()` on a separator-normalized path: a
leading separator contributes the root component, empty segments collapse. -/
def componentCount (s : String) : Nat :=
  (if s.data.head? = some '/' then 1 else 0) +
    (splitNonempty (fun c => c = '/') s.data []).length

/-! ## Data model

`FileEntry` is the in-memory candidate produced by traversal, `Row` is one
row of the `files` table created by `init_database` (db/schema.rs lines
9-21); `path` is the primary key and `token_count` is written only by
external collaborators. -/

/-- Struct `FileEntry` (commands/indexing.rs lines 28-39). -/
structure FileEntry where
  path : String
  parent_path : Option String
  name : String
  size : Option Int
  mtime : Option Int
  is_dir : Bool
  token_count : Option Int
  fingerprint : Option String
  child_count : Option Int
deriving DecidableEq

/-- One row of the `files` table (db/schema.rs lines 10-19). -/
structure Row where
  path : String
  parent_path : Option String
  name : String
  size : Option Int
  mtime : Option Int
  is_dir : Bool
  token_count : Option Int
  fingerprint : Option String
deriving DecidableEq

/-! ## Metadata-to-entry construction (claim C9) -/

/-- The mutually exclusive `std::fs::FileType` alternatives. -/
inductive FsType
  | file
  | dir
  | other
deriving DecidableEq

/-- The slice of `std::fs::Metadata` read by the entry constructors:
`is_file`/`is_dir` via the file type, `len()`, and `modified()` projected to
seconds since the epoch (`none` when the time is unavailable or precedes the
epoch). -/
structure FsMetadata where
  ftype : FsType
  len : Int
  modified : Option Int
deriving DecidableEq

/-- The shared metadata-to-entry logic of `FileEntry::from_path` and
`FileEntry::from_dir_entry` (commands/indexing.rs lines 61-153): `size` only
for regular files, `mtime` only when readable, and
`fingerprint = "<mtime>_<size>"` exactly when both are present.  The
filesystem read itself is external; the metadata record is the input. -/
def fileEntryOfMetadata (path : String) (parent_path : Option String) (name : String)
    (md : FsMetadata) : FileEntry :=
  let size : Option Int := if md.ftype = FsType.file then some md.len else none
  let mtime : Option Int := md.modified
  let fingerprint : Option String :=
    size.bind (fun s => mtime.map (fun m => toString m ++ "_" ++ toString s))
  { path := normalizePath path
    parent_path := parent_path.map normalizePath
    name := name
    size := size
    mtime := mtime
    is_dir := md.ftype = FsType.dir
    token_count := none
    fingerprint := fingerprint
    child_count := none }

/-! ## Ignore-rule resolution (claim C1)

Paths are lists of components.  `Gitignore::matched` of the external
`ignore` crate is modeled for the slash-free pattern shapes the claim uses:
a `*`-suffix pattern and a literal file name, both matching at any depth
(the crate compiles a slash-free pattern `pat` to the glob `**/pat`). -/

/-- Outcome of `ignore::Gitignore::matched`. -/
inductive GMatch
  | noMatch
  | ignoreMatch
  | whitelistMatch
deriving DecidableEq

/-- A compiled slash-free gitignore glob: `nameSuffix suf` models `*<suf>`
(final component ends with `suf`), `nameExact nm` models a literal file name
(final component equals `nm`). -/
inductive GlobPat
  | nameSuffix (suf : String)
  | nameExact (nm : String)
deriving DecidableEq

/-- One gitignore line: a glob, negated when the line starts with `!`. -/
structure IgnoreRule where
  negated : Bool
  pat : GlobPat
deriving DecidableEq

/-- Does the glob match the root-stripped relative path? -/
def globTest : GlobPat → List String → Bool
  | GlobPat.nameSuffix suf, rel =>
    match rel.getLast? with
    | some c => suf.data.isSuffixOf c.data
    | none => false
  | GlobPat.nameExact nm, rel =>
    match rel.getLast? with
    | some c => c == nm
    | none => false

/-- `Gitignore::matched`: within one rule file the last matching line
decides; a negated line whitelists, any other match ignores.  `isDir` is
threaded through as in the crate's interface; the modeled slash-free file
patterns do not consult it. -/
def gitignoreMatched (rules : List IgnoreRule) (rel : List String) (_isDir : Bool) : GMatch :=
  rules.foldl
    (fun acc r =>
      if globTest r.pat rel then
        if r.negated then GMatch.whitelistMatch else GMatch.ignoreMatch
      else acc)
    GMatch.noMatch

/-- `GitignoreManager` (gitignore.rs lines 11-16): the indexed root plus the
per-directory compiled matchers, as an association list keyed by the
directory holding the `.gitignore` file. -/
structure GitignoreManager where
  root : List String
  gitignores : List (List String × List IgnoreRule)

/-- One step of the ancestor walk: apply the matcher registered for `dir`
(if any) to the full path, overwriting the running flag on a match.  The
crate strips the matcher's root, here `dir`, from the queried path. -/
def applyDirMatch (m : GitignoreManager) (path : List String) (isDir : Bool)
    (dir : List String) (ignored : Bool) : Bool :=
  match m.gitignores.lookup dir with
  | some rules =>
    match gitignoreMatched rules (path.drop dir.length) isDir with
    | GMatch.noMatch => ignored
    | GMatch.ignoreMatch => true
    | GMatch.whitelistMatch => false
  | none => ignored

/-- The `while let Some(dir) = ancestor` loop of
`GitignoreManager::is_ignored_with_type` (gitignore.rs lines 129-146),
started at the immediate parent: stop below the root, otherwise apply the
directory's matcher and continue with the parent; stop after the root.
The fuel argument is the length of the starting directory, which bounds the
number of parent steps. -/
def ancestorWalk (m : GitignoreManager) (path : List String) (isDir : Bool) :
    Nat → List String → Bool → Bool
  | fuel, dir, ignored =>
    if m.root.isPrefixOf dir = false ∧ dir ≠ m.root then ignored
    else
      let ignored' := applyDirMatch m path isDir dir ignored
      if dir = m.root then ignored'
      else
        match fuel with
        | 0 => ignored'
        | Nat.succ f => ancestorWalk m path isDir f dir.dropLast ignored'

/-- `GitignoreManager::is_ignored_with_type` (gitignore.rs lines 121-149):
`.gitignore` files are never ignored; otherwise fold the ancestor chain from
the immediate parent up to the indexed root, each matcher overwriting the
ignored flag. -/
def is_ignored_with_type (m : GitignoreManager) (path : List String) (isDir : Bool) : Bool :=
  if path.getLast? = some ".gitignore" then false
  else ancestorWalk m path isDir path.dropLast.length path.dropLast false

/-! ## Persistence (claims C2, C3, C6, C10)

The upsert of `parallel_index_folder` (commands/indexing.rs lines 731-763),
identical to `upsert_entry` in commands/indexing_persistence.rs and to the
update/insert step of `traverse_and_insert` (lines 537-560): look up the
stored fingerprint for the candidate's path; an equal fingerprint leaves the
table untouched, a different one updates the matching row in place, a
missing row is inserted. -/

/-- `SELECT ... FROM files WHERE path = ?`: the first (under path uniqueness,
the only) row with the given path. -/
def dbFind (db : List Row) (p : String) : Option Row :=
  db.find? (fun r => r.path == p)

/-- The columns written by `UPDATE files SET size = ?, mtime = ?,
fingerprint = ?, name = ?, parent_path = ? WHERE path = ?`; `path`, `is_dir`
and `token_count` are not in the SET list. -/
def updateRow (r : Row) (e : FileEntry) : Row :=
  { r with
    size := e.size
    mtime := e.mtime
    fingerprint := e.fingerprint
    name := e.name
    parent_path := e.parent_path }

/-- The row created by `INSERT INTO files (path, parent_path, name, size,
mtime, is_dir, fingerprint) VALUES (...)`; `token_count` is not in the
column list and stays NULL. -/
def insertRow (e : FileEntry) : Row :=
  { path := e.path
    parent_path := e.parent_path
    name := e.name
    size := e.size
    mtime := e.mtime
    is_dir := e.is_dir
    token_count := none
    fingerprint := e.fingerprint }

/-- One candidate upsert. -/
def upsert_entry (db : List Row) (e : FileEntry) : List Row :=
  match dbFind db e.path with
  | some r =>
    if r.fingerprint = e.fingerprint then db
    else db.map (fun r2 => if r2.path == e.path then updateRow r2 e else r2)
  | none => db ++ [insertRow e]

/-- Depth order used by
`sorted_entries.sort_by_key(|entry| Path::new(&entry.path).components().count())`. -/
def depthLe (a b : FileEntry) : Prop :=
  componentCount a.path ≤ componentCount b.path

instance : DecidableRel depthLe := fun a b =>
  inferInstanceAs (Decidable (componentCount a.path ≤ componentCount b.path))

/-- Stable sort of the candidates by path depth, parents first. -/
def sortByDepth (entries : List FileEntry) : List FileEntry :=
  List.insertionSort depthLe entries

/-- Sequential application of the upserts of one committed batch. -/
def applyBatch (db : List Row) (chunk : List FileEntry) : List Row :=
  chunk.foldl upsert_entry db

/-- The net effect of one persistence run in which every batch transaction
commits: all upserts in depth order. -/
def persistEntries (db : List Row) (entries : List FileEntry) : List Row :=
  (sortByDepth entries).foldl upsert_entry db

/-- `const BATCH_SIZE: usize = 1000`. -/
def BATCH_SIZE : Nat := 1000

/-- `chunks(n)` with explicit fuel (the list length bounds the number of
chunks for `n ≥ 1`, the only use). -/
def chunksOfFuel (n : Nat) : Nat → List FileEntry → List (List FileEntry)
  | _, [] => []
  | 0, _ :: _ => []
  | Nat.succ fuel, l => l.take n :: chunksOfFuel n fuel (l.drop n)

/-- `sorted_entries.chunks(BATCH_SIZE)` generalized over the chunk size. -/
def chunksOf (n : Nat) (l : List FileEntry) : List (List FileEntry) :=
  chunksOfFuel n l.length l

/-- The batch loop of `parallel_index_folder` with an explicit failure model
for `tx.commit()?`: `fail k` says the k-th transaction fails to commit.
A transaction is atomic, so a failed batch leaves the store as it was before
that batch, and the error — carrying the failing batch index and the
surviving store — propagates to the caller; a committed batch makes its
upserts durable and the loop continues. -/
def runBatches (fail : Nat → Bool) : List Row → Nat → List (List FileEntry) →
    Except (Nat × List Row) (List Row)
  | db, _, [] => Except.ok db
  | db, k, c :: cs =>
    if fail k then Except.error (k, db)
    else runBatches fail (applyBatch db c) (k + 1) cs

/-- The persistence phase of `parallel_index_folder` (commands/indexing.rs
lines 709-773; also `persist_entries_in_batches` in
commands/indexing_persistence.rs): depth-sort the collected candidates,
split them into batches of `BATCH_SIZE`, run one transaction per batch. -/
def persist_entries_in_batches (fail : Nat → Bool) (db : List Row)
    (entries : List FileEntry) : Except (Nat × List Row) (List Row) :=
  runBatches fail db 0 (chunksOf BATCH_SIZE (sortByDepth entries))

/-! ## Listing children (claim C4) -/

/-- `ORDER BY is_dir DESC, name ASC` (SQLite compares TEXT byte-wise). -/
def childLe (a b : Row) : Prop :=
  ((a.is_dir && !b.is_dir) || ((a.is_dir == b.is_dir) && lexLe a.name.data b.name.data)) = true

instance : DecidableRel childLe := fun a b =>
  inferInstanceAs
    (Decidable
      (((a.is_dir && !b.is_dir) ||
        ((a.is_dir == b.is_dir) && lexLe a.name.data b.name.data)) = true))

/-- The root-level WHERE clause of `get_children` for `parent_path = None`
(commands/indexing.rs lines 195-200): rows whose `parent_path` IS NULL, plus
orphan rows whose non-NULL `parent_path` equals no stored row's path. -/
def rootVisible (db : List Row) (r : Row) : Bool :=
  match r.parent_path with
  | none => true
  | some pp => !(db.any (fun r2 => r2.path == pp))

/-- `get_children` (commands/indexing.rs lines 183-248), modulo the derived
`child_count` column, which annotates each returned row and does not affect
which rows are returned. -/
def get_children (db : List Row) (parent : Option String) : List Row :=
  match parent with
  | none => List.insertionSort childLe (db.filter (fun r => rootVisible db r))
  | some p => List.insertionSort childLe (db.filter (fun r => r.parent_path == some p))

/-! ## Query engine (claims C5, C7, C8)

Regex compilation and matching live in the external `regex` crate; a
compiled regex is abstracted to its match function and the compiler is a
parameter.  `LIKE '%x%'` filters are modeled as substring containment of the
interpolated needle. -/

/-- A compiled regex, abstracted to its match function. -/
structure Reg where
  test : String → Bool

/-- Struct `SearchFilter` (commands/indexing.rs lines 251-257). -/
structure SearchFilter where
  file_name : Option String
  directory_name : Option String
  regex_pattern : Option Reg
  plain_text : Option String

/-- Struct `SearchResult` (commands/indexing.rs lines 41-53). -/
structure SearchResult where
  path : String
  parent_path : Option String
  name : String
  size : Option Int
  mtime : Option Int
  is_dir : Bool
  token_count : Option Int
  fingerprint : Option String
  child_count : Option Int
  score : Int
deriving DecidableEq

/-- `query.trim().split_whitespace()`: the whitespace-separated tokens, as
character lists. -/
def partsOf (query : String) : List (List Char) :=
  splitNonempty isWsp query.data []

/-- First branch of the token loop: `lower.starts_with("file:") && part.len() > 5`
(the prefix is ASCII, so the byte and character counts agree there). -/
def isFileTok (part : List Char) : Bool :=
  "file:".data.isPrefixOf (part.map lowerChar) && decide (5 < part.length)

/-- Second branch: `lower.starts_with("dir:") && part.len() > 4`, reached
only when the first branch declined. -/
def isDirTok (part : List Char) : Bool :=
  !isFileTok part && "dir:".data.isPrefixOf (part.map lowerChar) && decide (4 < part.length)

/-- The `file:` payload: the loop assigns on every `file:` token, so the last
one wins; the payload is the token minus the five prefix characters. -/
def fileToken (query : String) : Option String :=
  (partsOf query).foldl
    (fun acc part => if isFileTok part then some ⟨part.drop 5⟩ else acc) none

/-- The `dir:` payload, last token wins. -/
def dirToken (query : String) : Option String :=
  (partsOf query).foldl
    (fun acc part => if isDirTok part then some ⟨part.drop 4⟩ else acc) none

/-- `remaining_parts.join(" ")`: the tokens that are neither `file:` nor
`dir:` tokens, re-joined with single spaces. -/
def remainingText (query : String) : String :=
  ⟨List.intercalate [' ']
    ((partsOf query).filter (fun part => !isFileTok part && !isDirTok part))⟩

/-- The character class of the metacharacter-detection regex
`[.*?\[\]()|^${}+\\]`. -/
def regexMetaChars : List Char :=
  ['.', '*', '?', '[', ']', '(', ')', '|', '^', '$', '\x7b', '\x7d', '+', '\\']

/-- `regex_special.is_match(&remaining)`. -/
def hasRegexMeta (s : String) : Bool :=
  s.data.any (fun c => regexMetaChars.contains c)

/-- `parse_search_query` (commands/indexing.rs lines 261-305), with the
external regex compiler supplied as `compile`.  A remaining text containing
metacharacters is compiled case-insensitively (`(?i)` prefix); compilation
failure falls back to plain text.  An all-whitespace query produces the
all-`none` filter, matching the source's early `SearchFilter::default()`. -/
def parse_search_query (compile : String → Option Reg) (query : String) : SearchFilter :=
  let remaining := remainingText query
  let rp : Option Reg × Option String :=
    if remaining.data.isEmpty then (none, none)
    else if hasRegexMeta remaining then
      match compile ("(?i)" ++ remaining) with
      | some re => (some re, none)
      | none => (none, some remaining)
    else (none, some remaining)
  { file_name := fileToken query
    directory_name := dirToken query
    regex_pattern := rp.1
    plain_text := rp.2 }

/-- `compute_score` (commands/indexing.rs lines 313-345).  `name.len()` is
the UTF-8 byte length, as in Rust. -/
def compute_score (name path query : String) (is_dir : Bool) : Int :=
  if query = "" then 0
  else
    let nameLower := lowerStr name
    let pathLower := lowerStr path
    let queryLower := lowerStr query
    let base : Int :=
      if nameLower = queryLower then 100
      else if strStartsWith nameLower queryLower then 50
      else if strContainsSub nameLower queryLower then 30
      else if strContainsSub pathLower queryLower then 10
      else 0
    let score1 : Int :=
      if strContainsSub nameLower queryLower && decide (name.utf8ByteSize < 20) then
        base + 5
      else base
    if !is_dir && decide (0 < score1) then score1 + 1 else score1

/-- Modelled from the spec's scoring table (spec section 4.4), as the claim's
reference definition: exactly one base score of 100 (exact case-insensitive
name match), 50 (name starts with the query), 30 (name contains the query)
or 10 (only the path contains the query); +5 when the name contains the
query and the name's length is under 20; +1 for a non-directory entry whose
score so far is positive.  An empty query yields no results per the spec, so
the reference scorer gives it 0. -/
def specScore (name path query : String) (is_dir : Bool) : Int :=
  if query = "" then 0
  else
    let nameLower := lowerStr name
    let pathLower := lowerStr path
    let queryLower := lowerStr query
    let exact : Prop := nameLower = queryLower
    let starts : Prop := strStartsWith nameLower queryLower = true
    let inName : Prop := strContainsSub nameLower queryLower = true
    let inPath : Prop := strContainsSub pathLower queryLower = true
    let base : Int :=
      if exact then 100
      else if starts ∧ ¬ exact then 50
      else if inName ∧ ¬ starts ∧ ¬ exact then 30
      else if inPath ∧ ¬ inName ∧ ¬ starts ∧ ¬ exact then 10
      else 0
    let shortBonus : Int := if inName ∧ name.utf8ByteSize < 20 then 5 else 0
    let fileBonus : Int := if is_dir = false ∧ 0 < base + shortBonus then 1 else 0
    base + shortBonus + fileBonus

/-- The derived `child_count` column of the SELECT:
`(SELECT COUNT(*) FROM files f2 WHERE f2.parent_path = files.path)`. -/
def countChildren (db : List Row) (p : String) : Int :=
  ((db.filter (fun r2 => r2.parent_path == some p)).length : Int)

/-- The WHERE clause assembled by `search_db` (commands/indexing.rs lines
360-403) as the list of pushed conditions, evaluated at one row: `file:`
restricts to files by name, `dir:` to directories by name; when both are
present the conditions are cleared and replaced by the combined
files-inside-matching-directory condition; plain text matches name or path.
The row satisfies the clause when all pushed conditions hold (an empty list
is the `1=1` clause). -/
def searchConditions (f : SearchFilter) (r : Row) : List Bool :=
  (match f.file_name, f.directory_name with
   | some x, some y =>
     [!r.is_dir && strContainsSub (lowerStr r.name) (lowerStr x) &&
       strContainsSub (lowerStr r.path) ("/" ++ lowerStr y ++ "/")]
   | some x, none => [!r.is_dir && strContainsSub (lowerStr r.name) (lowerStr x)]
   | none, some y => [r.is_dir && strContainsSub (lowerStr r.name) (lowerStr y)]
   | none, none => []) ++
  (match f.plain_text with
   | some t =>
     [strContainsSub (lowerStr r.name) (lowerStr t) ||
       strContainsSub (lowerStr r.path) (lowerStr t)]
   | none => [])

/-- Does the row satisfy every condition of the WHERE clause? -/
def rowPred (f : SearchFilter) (r : Row) : Bool :=
  (searchConditions f r).all (fun b => b)

/-- `score_query`: the text the user actually typed, for scoring — the
`file:` payload, else the `dir:` payload, else the plain text, else empty. -/
def scoreQuery (f : SearchFilter) : String :=
  match f.file_name with
  | some x => x
  | none =>
    match f.directory_name with
    | some y => y
    | none =>
      match f.plain_text with
      | some t => t
      | none => ""

/-- The SELECT row materialized as a scored `SearchResult`. -/
def mkResult (db : List Row) (sq : String) (r : Row) : SearchResult :=
  { path := r.path
    parent_path := r.parent_path
    name := r.name
    size := r.size
    mtime := r.mtime
    is_dir := r.is_dir
    token_count := r.token_count
    fingerprint := r.fingerprint
    child_count := some (countChildren db r.path)
    score := compute_score r.name r.path sq r.is_dir }

/-- The sort comparator `b.score.cmp(&a.score).then_with(|| a.name.cmp(&b.name))`:
score descending, ties broken by name ascending. -/
def resultLE (a b : SearchResult) : Bool :=
  decide (b.score < a.score) || (decide (a.score = b.score) && lexLe a.name.data b.name.data)

/-- `resultLE` as the sort relation. -/
def resultOrder (a b : SearchResult) : Prop := resultLE a b = true

instance : DecidableRel resultOrder := fun a b =>
  inferInstanceAs (Decidable (resultLE a b = true))

/-- The body of `search_db` (commands/indexing.rs lines 348-485) on parsed
filters: the early empty-filter exit, SQL filtering capped at 500 rows,
scoring against `score_query`, the in-Rust regex re-filter and coarse
re-score, the zero-score drop, and the final stable sort. -/
def runSearch (f : SearchFilter) (db : List Row) : List SearchResult :=
  if f.file_name.isNone && f.directory_name.isNone && f.regex_pattern.isNone &&
      f.plain_text.isNone then []
  else
    let rows := (db.filter (rowPred f)).take 500
    let sq := scoreQuery f
    let scored := rows.map (mkResult db sq)
    let refiltered :=
      match f.regex_pattern with
      | some re =>
        (scored.filter (fun (r : SearchResult) => re.test r.name || re.test r.path)).map
          (fun (r : SearchResult) => { r with score := if re.test r.name then 50 else 10 })
      | none => scored
    List.insertionSort resultOrder (refiltered.filter (fun r => decide (0 < r.score)))

/-- `search_db` (commands/indexing.rs lines 348-485). -/
def search_db (compile : String → Option Reg) (db : List Row) (pattern : String) :
    List SearchResult :=
  runSearch (parse_search_query compile pattern) db

/-! ## Auxiliary observers and concrete instances used by the theorems -/

/-- The stored fingerprint at a path: `none` when no row exists, otherwise
the row's (possibly NULL) fingerprint. -/
def fpAt (db : List Row) (p : String) : Option (Option String) :=
  (dbFind db p).map Row.fingerprint

/-- The nested-negation scenario of claim C1: the root's rule file holds
`*.log`, the subdirectory's rule file holds `!important.log`. -/
def c1Manager : GitignoreManager :=
  { root := ["r"]
    gitignores :=
      [ (["r"], [{ negated := false, pat := GlobPat.nameSuffix ".log" }]),
        (["r", "sub"], [{ negated := true, pat := GlobPat.nameExact "important.log" }]) ] }

/-- A stored row for the C3 counterexample. -/
def c3Row : Row :=
  { path := "/a/b", parent_path := some "/a", name := "b", size := some 1,
    mtime := some 2, is_dir := false, token_count := none, fingerprint := some "2_1" }

/-- A re-index candidate for the same path with the same fingerprint but a
different `parent_path` (as produced when the same file is indexed directly,
with `parent_path = None`, after having been indexed under its folder). -/
def c3Entry : FileEntry :=
  { path := "/a/b", parent_path := none, name := "b", size := some 1,
    mtime := some 2, is_dir := false, token_count := none, fingerprint := some "2_1",
    child_count := none }

/-- A re-index candidate for `c3Row`'s path whose fingerprint differs. -/
def c3EntryChanged : FileEntry :=
  { path := "/a/b", parent_path := some "/a", name := "b", size := some 9,
    mtime := some 8, is_dir := false, token_count := none, fingerprint := some "8_9",
    child_count := none }

/-- A candidate entry for the C2 witness. -/
def c2Entry : FileEntry :=
  { path := "/a/b.txt", parent_path := some "/a", name := "b.txt", size := some 3,
    mtime := some 7, is_dir := false, token_count := none, fingerprint := some "7_3",
    child_count := none }

/-- A stored row carrying an externally written `token_count`, for the C10
witness. -/
def c10Row : Row :=
  { path := "/a/t.md", parent_path := some "/a", name := "t.md", size := some 4,
    mtime := some 6, is_dir := false, token_count := some 123, fingerprint := some "6_4" }

/-- A re-index candidate for `c10Row`'s path with a changed fingerprint. -/
def c10Entry : FileEntry :=
  { path := "/a/t.md", parent_path := some "/a", name := "t.md", size := some 5,
    mtime := some 9, is_dir := false, token_count := none, fingerprint := some "9_5",
    child_count := none }

/-- An orphan row for the C4 witness: its parent path is stored but no row
with that path exists. -/
def c4OrphanRow : Row :=
  { path := "/root/child/file.rs", parent_path := some "/root/child", name := "file.rs",
    size := some 2, mtime := some 3, is_dir := false, token_count := none,
    fingerprint := some "3_2" }

/-- A candidate entry for the C6 witness. -/
def c6Entry : FileEntry :=
  { path := "/a/c.txt", parent_path := some "/a", name := "c.txt", size := some 1,
    mtime := some 1, is_dir := false, token_count := none, fingerprint := some "1_1",
    child_count := none }

/-- A regex compiler that always fails, for witnesses whose queries never
reach compilation or whose compilation is required to fail. -/
def compileNone : String → Option Reg := fun _ => none

/-- A stored file row matched by the C5 witness query. -/
def c5Row : Row :=
  { path := "/a/src/App.tsx", parent_path := some "/a/src", name := "App.tsx",
    size := some 10, mtime := some 5, is_dir := false, token_count := none,
    fingerprint := some "5_10" }

/-- The search result the C5 witness query produces from `c5Row`. -/
def c5Result : SearchResult :=
  { path := "/a/src/App.tsx", parent_path := some "/a/src", name := "App.tsx",
    size := some 10, mtime := some 5, is_dir := false, token_count := none,
    fingerprint := some "5_10", child_count := some 0, score := 56 }

/-- A stored file row inside a `src` directory, for the C8 witness. -/
def c8Row : Row :=
  { path := "/a/src/Main.rs", parent_path := some "/a/src", name := "Main.rs",
    size := some 11, mtime := some 4, is_dir := false, token_count := none,
    fingerprint := some "4_11" }

/-- The search result the C8 witness query produces from `c8Row`. -/
def c8Result : SearchResult :=
  { path := "/a/src/Main.rs", parent_path := some "/a/src", name := "Main.rs",
    size := some 11, mtime := some 4, is_dir := false, token_count := none,
    fingerprint := some "4_11", child_count := some 0, score := 56 }

/-! ## Theorems: persistence (claims C2, C3, C10) -/

theorem updateRow_path (r : Row) (e : FileEntry) : (updateRow r e).path = r.path := rfl

theorem dbFind_map_update (db : List Row) (e : FileEntry) (p : String) :
    dbFind (db.map (fun r2 => if r2.path == e.path then updateRow r2 e else r2)) p =
      (dbFind db p).map (fun r2 => if r2.path == e.path then updateRow r2 e else r2) := by
  unfold dbFind
  rw [List.find?_map]
  have hpred : ((fun r => r.path == p) ∘
      (fun r2 => if r2.path == e.path then updateRow r2 e else r2)) =
      (fun (r : Row) => r.path == p) := by
    funext r2
    by_cases h : r2.path == e.path <;> simp [Function.comp, h, updateRow_path]
  rw [hpred]

theorem find?_insertRow_ne (e : FileEntry) {p : String} (h : p ≠ e.path) :
    List.find? (fun r => r.path == p) [insertRow e] = none := by
  have hb : ((insertRow e).path == p) = false := beq_eq_false_iff_ne.mpr (Ne.symm h)
  simp [List.find?, hb]

theorem dbFind_upsert_ne (db : List Row) (e : FileEntry) {p : String} (h : p ≠ e.path) :
    dbFind (upsert_entry db e) p = dbFind db p := by
  cases hfind : dbFind db e.path with
  | none =>
    unfold upsert_entry
    rw [hfind]
    show dbFind (db ++ [insertRow e]) p = dbFind db p
    unfold dbFind
    rw [List.find?_append, find?_insertRow_ne e h]
    cases List.find? (fun r => r.path == p) db <;> rfl
  | some r =>
    unfold upsert_entry
    rw [hfind]
    show dbFind (if r.fingerprint = e.fingerprint then db
      else db.map (fun r2 => if r2.path == e.path then updateRow r2 e else r2)) p =
      dbFind db p
    by_cases hfp : r.fingerprint = e.fingerprint
    · rw [if_pos hfp]
    · rw [if_neg hfp, dbFind_map_update]
      cases hp : dbFind db p with
      | none => rfl
      | some r2 =>
        have h3 : r2.path = p := by simpa using List.find?_some hp
        have h4 : (r2.path == e.path) = false := beq_eq_false_iff_ne.mpr (h3 ▸ h)
        simp [h4]
        intro hc
        exact absurd hc (beq_eq_false_iff_ne.mp h4)

theorem fpAt_upsert_self (db : List Row) (e : FileEntry) :
    fpAt (upsert_entry db e) e.path = some e.fingerprint := by
  cases hfind : dbFind db e.path with
  | none =>
    unfold fpAt upsert_entry
    rw [hfind]
    show (dbFind (db ++ [insertRow e]) e.path).map Row.fingerprint = some e.fingerprint
    unfold dbFind
    rw [List.find?_append]
    unfold dbFind at hfind
    rw [hfind]
    simp [List.find?, insertRow]
  | some r =>
    unfold fpAt upsert_entry
    rw [hfind]
    show ((dbFind (if r.fingerprint = e.fingerprint then db
      else db.map (fun r2 => if r2.path == e.path then updateRow r2 e else r2))
        e.path).map Row.fingerprint) = some e.fingerprint
    by_cases hfp : r.fingerprint = e.fingerprint
    · rw [if_pos hfp, hfind]
      simp [hfp]
    · rw [if_neg hfp, dbFind_map_update, hfind]
      have hfind' : List.find? (fun r2 => r2.path == e.path) db = some r := hfind
      have h2' := List.find?_some hfind'
      have h2 : (r.path == e.path) = true := h2'
      simp [h2, updateRow]
      rw [if_pos (by simpa using h2)]

theorem upsert_of_fp_eq (db : List Row) (e : FileEntry)
    (h : fpAt db e.path = some e.fingerprint) : upsert_entry db e = db := by
  cases hfind : dbFind db e.path with
  | none => simp [fpAt, hfind] at h
  | some r =>
    have hr : r.fingerprint = e.fingerprint := by
      simp [fpAt, hfind] at h
      exact h
    unfold upsert_entry
    rw [hfind]
    show (if r.fingerprint = e.fingerprint then db
      else db.map (fun r2 => if r2.path == e.path then updateRow r2 e else r2)) = db
    rw [if_pos hr]

theorem fpAt_foldl_not_mem (l : List FileEntry) :
    ∀ (db : List Row) (p : String), (∀ e ∈ l, e.path ≠ p) →
      fpAt (l.foldl upsert_entry db) p = fpAt db p := by
  induction l with
  | nil => intro db p _; rfl
  | cons a rest ih =>
    intro db p h
    have h1 : fpAt (rest.foldl upsert_entry (upsert_entry db a)) p =
        fpAt (upsert_entry db a) p :=
      ih (upsert_entry db a) p (fun e he => h e (List.mem_cons_of_mem a he))
    have h2 : dbFind (upsert_entry db a) p = dbFind db p :=
      dbFind_upsert_ne db a (fun hp => h a (List.mem_cons_self a rest) hp.symm)
    rw [List.foldl_cons, h1]
    unfold fpAt
    rw [h2]

theorem fpAt_foldl_self (l : List FileEntry) :
    ∀ (db : List Row), (l.map FileEntry.path).Nodup →
      ∀ e ∈ l, fpAt (l.foldl upsert_entry db) e.path = some e.fingerprint := by
  induction l with
  | nil => intro db _ e he; cases he
  | cons a rest ih =>
    intro db hnd e he
    rw [List.map_cons, List.nodup_cons] at hnd
    rcases List.mem_cons.mp he with rfl | hmem
    · have h1 : ∀ e2 ∈ rest, e2.path ≠ e.path := by
        intro e2 he2 hpe
        exact hnd.1 (hpe ▸ List.mem_map_of_mem FileEntry.path he2)
      rw [List.foldl_cons, fpAt_foldl_not_mem rest _ _ h1]
      exact fpAt_upsert_self db e
    · exact ih (upsert_entry db a) hnd.2 e hmem

theorem foldl_upsert_stable (l : List FileEntry) :
    ∀ (db : List Row), (∀ e ∈ l, fpAt db e.path = some e.fingerprint) →
      l.foldl upsert_entry db = db := by
  induction l with
  | nil => intro db _; rfl
  | cons a rest ih =>
    intro db h
    have h1 : upsert_entry db a = db := upsert_of_fp_eq db a (h a (List.mem_cons_self a rest))
    rw [List.foldl_cons, h1]
    exact ih db (fun e he => h e (List.mem_cons_of_mem a he))

theorem paths_upsert (db : List Row) (e : FileEntry) :
    ((upsert_entry db e).map Row.path = db.map Row.path) ∨
    ((upsert_entry db e).map Row.path = db.map Row.path ++ [e.path] ∧
      e.path ∉ db.map Row.path) := by
  cases hfind : dbFind db e.path with
  | none =>
    right
    unfold upsert_entry
    rw [hfind]
    constructor
    · show (db ++ [insertRow e]).map Row.path = db.map Row.path ++ [e.path]
      simp [insertRow]
    · intro hmem
      rcases List.mem_map.mp hmem with ⟨r, hr, hrp⟩
      have := List.find?_eq_none.mp hfind r hr
      simp [hrp] at this
  | some r =>
    left
    unfold upsert_entry
    rw [hfind]
    show (if r.fingerprint = e.fingerprint then db
      else db.map (fun r2 => if r2.path == e.path then updateRow r2 e else r2)).map Row.path =
      db.map Row.path
    by_cases hfp : r.fingerprint = e.fingerprint
    · rw [if_pos hfp]
    · rw [if_neg hfp, List.map_map]
      congr 1
      funext r2
      by_cases h : r2.path == e.path <;> simp [Function.comp, h, updateRow_path]

theorem nodup_paths_upsert (db : List Row) (e : FileEntry)
    (h : (db.map Row.path).Nodup) : ((upsert_entry db e).map Row.path).Nodup := by
  rcases paths_upsert db e with h1 | ⟨h1, h2⟩
  · rw [h1]; exact h
  · rw [h1]
    refine List.nodup_append.mpr ⟨h, List.nodup_singleton _, ?_⟩
    intro a ha hb
    rw [List.mem_singleton] at hb
    exact h2 (hb ▸ ha)

theorem nodup_paths_foldl (l : List FileEntry) :
    ∀ (db : List Row), (db.map Row.path).Nodup →
      ((l.foldl upsert_entry db).map Row.path).Nodup := by
  induction l with
  | nil => intro db h; exact h
  | cons a rest ih =>
    intro db h
    exact ih (upsert_entry db a) (nodup_paths_upsert db a h)

theorem runBatches_no_fail (cs : List (List FileEntry)) :
    ∀ (db : List Row) (k : Nat),
      runBatches (fun _ => false) db k cs = Except.ok (cs.foldl applyBatch db) := by
  induction cs with
  | nil => intro db k; rfl
  | cons c cs ih =>
    intro db k
    show (if (false : Bool) = true then Except.error (k, db)
      else runBatches (fun _ => false) (applyBatch db c) (k + 1) cs) =
      Except.ok ((c :: cs).foldl applyBatch db)
    rw [if_neg (by simp)]
    rw [List.foldl_cons]
    exact ih (applyBatch db c) (k + 1)

theorem chunksOfFuel_foldl (n : Nat) (hn : n ≠ 0) :
    ∀ (fuel : Nat) (l : List FileEntry) (db : List Row), l.length ≤ fuel →
      (chunksOfFuel n fuel l).foldl applyBatch db = l.foldl upsert_entry db := by
  intro fuel
  induction fuel with
  | zero =>
    intro l db hl
    cases l with
    | nil => rfl
    | cons a l => simp at hl
  | succ f ih =>
    intro l db hl
    cases l with
    | nil => rfl
    | cons a l =>
      show ((a :: l).take n :: chunksOfFuel n f ((a :: l).drop n)).foldl applyBatch db =
        (a :: l).foldl upsert_entry db
      rw [List.foldl_cons]
      have hlen : ((a :: l).drop n).length ≤ f := by
        rw [List.length_drop]
        simp only [List.length_cons] at hl ⊢
        omega
      rw [ih ((a :: l).drop n) (applyBatch db ((a :: l).take n)) hlen]
      show ((a :: l).drop n).foldl upsert_entry (((a :: l).take n).foldl upsert_entry db) =
        (a :: l).foldl upsert_entry db
      rw [← List.foldl_append, List.take_append_drop]

theorem persist_batches_ok (db : List Row) (entries : List FileEntry) :
    persist_entries_in_batches (fun _ => false) db entries =
      Except.ok (persistEntries db entries) := by
  unfold persist_entries_in_batches persistEntries chunksOf
  rw [runBatches_no_fail]
  rw [chunksOfFuel_foldl BATCH_SIZE (by simp [BATCH_SIZE]) _ _ db (Nat.le_refl _)]

/-- C2: persisting the same candidate entry set twice in a row is
idempotent — on the second run every upsert takes the fingerprint-equal
branch (fingerprint-less directory candidates included, their `none`
fingerprints compare equal), so the stored table is unchanged — and `path`
stays unique: re-persisting never creates a duplicate row for an existing
path.  The third conjunct ties the depth-sorted upsert fold to the batched
transaction loop when every commit succeeds. -/
theorem c2_persist_idempotent_unique (db : List Row) (entries : List FileEntry)
    (hentries : (entries.map FileEntry.path).Nodup) (hdb : (db.map Row.path).Nodup) :
    persistEntries (persistEntries db entries) entries = persistEntries db entries ∧
    ((persistEntries db entries).map Row.path).Nodup ∧
    persist_entries_in_batches (fun _ => false) db entries =
      Except.ok (persistEntries db entries) := by
  have hperm : ((sortByDepth entries).map FileEntry.path).Nodup := by
    have hp : (sortByDepth entries).Perm entries := List.perm_insertionSort depthLe entries
    exact ((hp.map FileEntry.path).nodup_iff).mpr hentries
  refine ⟨?_, ?_, persist_batches_ok db entries⟩
  · show (sortByDepth entries).foldl upsert_entry (persistEntries db entries) =
      persistEntries db entries
    apply foldl_upsert_stable
    intro e he
    exact fpAt_foldl_self (sortByDepth entries) db hperm e he
  · exact nodup_paths_foldl (sortByDepth entries) db hdb

/-- C2 witness: the theorem applied to a concrete one-entry run on an empty
table. -/
theorem c2_witness :
    persistEntries (persistEntries [] [c2Entry]) [c2Entry] = persistEntries [] [c2Entry] ∧
    ((persistEntries [] [c2Entry]).map Row.path).Nodup ∧
    persist_entries_in_batches (fun _ => false) [] [c2Entry] =
      Except.ok (persistEntries [] [c2Entry]) :=
  c2_persist_idempotent_unique [] [c2Entry] (by decide) (by decide)

/-- C3 counterexample: the claim asserts that `name` and `parent_path` are
refreshed on every re-index of an already-stored path, even when the
candidate's fingerprint equals the stored one.  For the stored row `c3Row`
and the candidate `c3Entry` — same path, same fingerprint, different
`parent_path` — the upsert takes the fingerprint-equal branch and performs
no UPDATE, so the stored `parent_path` still differs from the candidate's:
the claimed unconditional refresh does not happen. -/
theorem c3_counterexample :
    dbFind [c3Row] c3Entry.path = some c3Row ∧
    c3Row.fingerprint = c3Entry.fingerprint ∧
    c3Row.parent_path ≠ c3Entry.parent_path ∧
    upsert_entry [c3Row] c3Entry = [c3Row] ∧
    (dbFind (upsert_entry [c3Row] c3Entry) c3Entry.path).map Row.parent_path ≠
      some c3Entry.parent_path := by decide

theorem upsert_found_semantics (db : List Row) (e : FileEntry) (r : Row)
    (hfind : dbFind db e.path = some r) :
    (r.fingerprint = e.fingerprint → upsert_entry db e = db) ∧
    (r.fingerprint ≠ e.fingerprint →
      dbFind (upsert_entry db e) e.path = some (updateRow r e) ∧
      (updateRow r e).name = e.name ∧
      (updateRow r e).parent_path = e.parent_path ∧
      (updateRow r e).size = e.size ∧
      (updateRow r e).mtime = e.mtime ∧
      (updateRow r e).fingerprint = e.fingerprint) := by
  constructor
  · intro hfp
    unfold upsert_entry
    rw [hfind]
    show (if r.fingerprint = e.fingerprint then db
      else db.map (fun r2 => if r2.path == e.path then updateRow r2 e else r2)) = db
    rw [if_pos hfp]
  · intro hfp
    refine ⟨?_, rfl, rfl, rfl, rfl, rfl⟩
    unfold upsert_entry
    rw [hfind]
    show dbFind (if r.fingerprint = e.fingerprint then db
      else db.map (fun r2 => if r2.path == e.path then updateRow r2 e else r2)) e.path =
      some (updateRow r e)
    rw [if_neg hfp, dbFind_map_update, hfind]
    have hfind' : List.find? (fun r2 => r2.path == e.path) db = some r := hfind
    have h2' := List.find?_some hfind'
    have h2 : (r.path == e.path) = true := h2'
    simp [h2]
    intro hc
    exact absurd (by simpa using h2) hc

/-- C3 amended: on a re-index of a path that already has a stored row,
nothing at all is refreshed when the candidate's fingerprint equals the
stored one; when the fingerprints differ, `size`, `mtime`, `fingerprint`,
`name` and `parent_path` are all refreshed to the candidate's values in one
UPDATE. -/
theorem c3_update_semantics (db : List Row) (e : FileEntry) (r : Row)
    (hfind : dbFind db e.path = some r) :
    (r.fingerprint = e.fingerprint → upsert_entry db e = db) ∧
    (r.fingerprint ≠ e.fingerprint →
      dbFind (upsert_entry db e) e.path = some (updateRow r e) ∧
      (updateRow r e).name = e.name ∧
      (updateRow r e).parent_path = e.parent_path ∧
      (updateRow r e).size = e.size ∧
      (updateRow r e).mtime = e.mtime ∧
      (updateRow r e).fingerprint = e.fingerprint) :=
  upsert_found_semantics db e r hfind

/-- C3 witness: the amended update semantics applied to the stored row
`c3Row` and the changed candidate `c3EntryChanged`. -/
theorem c3_witness :
    (c3Row.fingerprint = c3EntryChanged.fingerprint →
      upsert_entry [c3Row] c3EntryChanged = [c3Row]) ∧
    (c3Row.fingerprint ≠ c3EntryChanged.fingerprint →
      dbFind (upsert_entry [c3Row] c3EntryChanged) c3EntryChanged.path =
        some (updateRow c3Row c3EntryChanged) ∧
      (updateRow c3Row c3EntryChanged).name = c3EntryChanged.name ∧
      (updateRow c3Row c3EntryChanged).parent_path = c3EntryChanged.parent_path ∧
      (updateRow c3Row c3EntryChanged).size = c3EntryChanged.size ∧
      (updateRow c3Row c3EntryChanged).mtime = c3EntryChanged.mtime ∧
      (updateRow c3Row c3EntryChanged).fingerprint = c3EntryChanged.fingerprint) :=
  c3_update_semantics [c3Row] c3EntryChanged c3Row (by decide)

/-- C10: re-indexing an already-stored path never modifies that row's
`is_dir` or `token_count` columns — the fingerprint-equal branch writes
nothing and the UPDATE branch's SET list covers only `size`, `mtime`,
`fingerprint`, `name`, `parent_path` — so a `token_count` written by an
external collaborator survives every re-index of the same path. -/
theorem c10_reindex_preserves_is_dir_token_count (db : List Row) (e : FileEntry) (r : Row)
    (hfind : dbFind db e.path = some r) :
    ∃ r2, dbFind (upsert_entry db e) e.path = some r2 ∧
      r2.is_dir = r.is_dir ∧ r2.token_count = r.token_count := by
  by_cases hfp : r.fingerprint = e.fingerprint
  · refine ⟨r, ?_, rfl, rfl⟩
    rw [(upsert_found_semantics db e r hfind).1 hfp]
    exact hfind
  · exact ⟨updateRow r e, ((upsert_found_semantics db e r hfind).2 hfp).1, rfl, rfl⟩

/-- C10 witness: a row holding `token_count = some 123` keeps both `is_dir`
and `token_count` across a fingerprint-changing re-index of its path. -/
theorem c10_witness :
    ∃ r2, dbFind (upsert_entry [c10Row] c10Entry) c10Entry.path = some r2 ∧
      r2.is_dir = c10Row.is_dir ∧ r2.token_count = c10Row.token_count :=
  c10_reindex_preserves_is_dir_token_count [c10Row] c10Entry c10Row (by decide)

/-! ## Theorems: ignore precedence (claim C1) -/

/-- C1 evaluation at the claim's scenario: with the root rule set `*.log`
and the subdirectory rule set `!important.log`, the ancestor walk of
`is_ignored_with_type` visits the nearest rule set first and lets every
later (closer-to-root) rule set overwrite the flag, so the root's ignore
match is applied last: `sub/important.log` comes out IGNORED, although the
claim — and the repository's own tests `test_nested_gitignore_precedence`
and `test_nested_gitignore_files` — require the nested whitelist to win and
the path to be reported as not ignored.  The other two paths of the claim
evaluate as the claim states. -/
theorem c1_is_ignored_with_type_eval :
    is_ignored_with_type c1Manager ["r", "sub", "important.log"] false = true ∧
    is_ignored_with_type c1Manager ["r", "sub", "debug.log"] false = true ∧
    is_ignored_with_type c1Manager ["r", "debug.log"] false = true := by decide

/-! ## Theorems: batch transactions (claim C6) -/

theorem runBatches_error_elim (fail : Nat → Bool) :
    ∀ (cs : List (List FileEntry)) (db : List Row) (i k : Nat) (d : List Row),
      runBatches fail db i cs = Except.error (k, d) →
      i ≤ k ∧ fail k = true ∧ (∀ m, i ≤ m → m < k → fail m = false) ∧
      d = (cs.take (k - i)).foldl applyBatch db := by
  intro cs
  induction cs with
  | nil =>
    intro db i k d h
    exact absurd h (by simp [runBatches])
  | cons c cs ih =>
    intro db i k d h
    show i ≤ k ∧ fail k = true ∧ (∀ m, i ≤ m → m < k → fail m = false) ∧
      d = ((c :: cs).take (k - i)).foldl applyBatch db
    by_cases hf : fail i = true
    · have h' : (Except.error (i, db) : Except (Nat × List Row) (List Row)) =
          Except.error (k, d) := by
        rw [← h]
        show Except.error (i, db) =
          (if fail i = true then Except.error (i, db)
           else runBatches fail (applyBatch db c) (i + 1) cs)
        rw [if_pos hf]
      have hik : i = k ∧ db = d := by
        have := Except.error.inj h'
        exact ⟨congrArg Prod.fst this, congrArg Prod.snd this⟩
      rcases hik with ⟨rfl, rfl⟩
      refine ⟨Nat.le_refl i, hf, ?_, ?_⟩
      · intro m hm1 hm2; omega
      · simp
    · have h' : runBatches fail (applyBatch db c) (i + 1) cs = Except.error (k, d) := by
        rw [← h]
        show runBatches fail (applyBatch db c) (i + 1) cs =
          (if fail i = true then Except.error (i, db)
           else runBatches fail (applyBatch db c) (i + 1) cs)
        rw [if_neg hf]
      obtain ⟨h1, h2, h3, h4⟩ := ih (applyBatch db c) (i + 1) k d h'
      refine ⟨by omega, h2, ?_, ?_⟩
      · intro m hm1 hm2
        rcases Nat.eq_or_lt_of_le hm1 with rfl | hlt
        · simpa using hf
        · exact h3 m hlt hm2
      · have hki : k - i = (k - (i + 1)) + 1 := by omega
        rw [hki, List.take_succ_cons, List.foldl_cons]
        exact h4

theorem runBatches_error_intro (fail : Nat → Bool) :
    ∀ (cs : List (List FileEntry)) (db : List Row) (i j : Nat),
      j < cs.length → fail (i + j) = true → (∀ m, m < j → fail (i + m) = false) →
      runBatches fail db i cs = Except.error (i + j, (cs.take j).foldl applyBatch db) := by
  intro cs
  induction cs with
  | nil =>
    intro db i j hj
    simp at hj
  | cons c cs ih =>
    intro db i j hj hfj hbefore
    cases j with
    | zero =>
      show (if fail i = true then Except.error (i, db)
        else runBatches fail (applyBatch db c) (i + 1) cs) =
        Except.error (i + 0, ((c :: cs).take 0).foldl applyBatch db)
      rw [if_pos (by simpa using hfj)]
      simp
    | succ j' =>
      have hf0 : fail i = false := by simpa using hbefore 0 (Nat.succ_pos j')
      show (if fail i = true then Except.error (i, db)
        else runBatches fail (applyBatch db c) (i + 1) cs) =
        Except.error (i + (j' + 1), ((c :: cs).take (j' + 1)).foldl applyBatch db)
      rw [if_neg (by simp [hf0])]
      have hrec := ih (applyBatch db c) (i + 1) j' (by simpa using Nat.lt_of_succ_lt_succ hj)
        (by rw [show i + 1 + j' = i + (j' + 1) by omega]; exact hfj)
        (fun m hm => by
          rw [show i + 1 + m = i + (m + 1) by omega]
          exact hbefore (m + 1) (Nat.succ_lt_succ hm))
      rw [hrec, List.take_succ_cons, List.foldl_cons]
      congr 2
      omega

/-- C6: persistence commits the depth-sorted candidates in fixed-size
batches, each as one atomic transaction.  If the k-th batch's commit fails
(the first failing one), the run stops with exactly the rows produced by the
committed batches 0..k-1 — no partial effect of batch k is visible — and the
failure is surfaced to the caller as the returned error.  Conversely, a
first-failing commit at a reachable batch index is guaranteed to surface
that exact error and state. -/
theorem c6_batch_atomicity (fail : Nat → Bool) (db : List Row) (entries : List FileEntry) :
    (∀ k d, persist_entries_in_batches fail db entries = Except.error (k, d) →
      fail k = true ∧ (∀ i, i < k → fail i = false) ∧
      d = ((chunksOf BATCH_SIZE (sortByDepth entries)).take k).foldl applyBatch db) ∧
    (∀ k, k < (chunksOf BATCH_SIZE (sortByDepth entries)).length → fail k = true →
      (∀ i, i < k → fail i = false) →
      persist_entries_in_batches fail db entries =
        Except.error (k, ((chunksOf BATCH_SIZE (sortByDepth entries)).take k).foldl applyBatch db)) := by
  constructor
  · intro k d h
    obtain ⟨_, h2, h3, h4⟩ :=
      runBatches_error_elim fail (chunksOf BATCH_SIZE (sortByDepth entries)) db 0 k d h
    exact ⟨h2, fun i hi => h3 i (Nat.zero_le i) hi, by simpa using h4⟩
  · intro k hk hfk hbefore
    have h := runBatches_error_intro fail (chunksOf BATCH_SIZE (sortByDepth entries)) db 0 k
      hk (by simpa using hfk) (fun m hm => by simpa using hbefore m hm)
    simpa using h

/-- C6 witness: with a commit oracle that fails the first batch, persisting
one candidate into an empty table surfaces the error for batch 0 with the
untouched (empty) prior state. -/
theorem c6_witness :
    persist_entries_in_batches (fun _ => true) [] [c6Entry] =
      Except.error (0, ((chunksOf BATCH_SIZE (sortByDepth [c6Entry])).take 0).foldl
        applyBatch []) :=
  (c6_batch_atomicity (fun _ => true) [] [c6Entry]).2 0 (by decide) rfl
    (fun i hi => absurd hi (by omega))

/-! ## Theorems: fingerprint construction (claim C9) -/

/-- C9: every entry built from metadata keeps the fingerprint invariant — a
directory entry always has fingerprint `none`, and the fingerprint is
`some "<mtime>_<size>"` with those exact decimal renderings precisely when
both the size and the modification time are present (never `some` when
either is absent). -/
theorem c9_fingerprint_invariant (path : String) (pp : Option String) (name : String)
    (md : FsMetadata) :
    (fileEntryOfMetadata path pp name md).fingerprint =
      (match (fileEntryOfMetadata path pp name md).size,
             (fileEntryOfMetadata path pp name md).mtime with
       | some s, some m => some (toString m ++ "_" ++ toString s)
       | some _, none => none
       | none, _ => none) ∧
    ((fileEntryOfMetadata path pp name md).is_dir = true →
      (fileEntryOfMetadata path pp name md).fingerprint = none) := by
  cases hft : md.ftype <;> cases hmod : md.modified <;>
    simp [fileEntryOfMetadata, hft, hmod]

/-- C9 witness: a directory whose metadata carries a readable mtime still
gets fingerprint `none`. -/
theorem c9_witness :
    (fileEntryOfMetadata "/p" none "d" { ftype := FsType.dir, len := 4, modified := some 9 }).fingerprint = none :=
  (c9_fingerprint_invariant "/p" none "d"
    { ftype := FsType.dir, len := 4, modified := some 9 }).2 (by decide)

/-! ## Theorems: listing children (claim C4) -/

theorem rootVisible_none {db : List Row} {r : Row} (hp : r.parent_path = none) :
    rootVisible db r = true := by
  unfold rootVisible
  rw [hp]

theorem rootVisible_some {db : List Row} {r : Row} {pp : String}
    (hp : r.parent_path = some pp) :
    rootVisible db r = !(db.any (fun r2 => r2.path == pp)) := by
  unfold rootVisible
  rw [hp]

/-- C4: for every database state, the `None`-parent listing returns exactly
the rows whose stored `parent_path` is NULL plus every orphan row (a row
whose non-NULL `parent_path` equals no stored row's path); the
`Some p`-parent listing returns exactly the rows whose `parent_path` is `p`.
Consequently an entry indexed before its parent is visible in the
`None`-parent listing, and once a row for its parent exists it moves to the
parent's listing instead; with unique paths no listing contains a row
twice. -/
theorem c4_get_children_membership (db : List Row) (r : Row) :
    (r ∈ get_children db none ↔
      r ∈ db ∧ (r.parent_path = none ∨ ∀ r2 ∈ db, some r2.path ≠ r.parent_path)) ∧
    (∀ p, r ∈ get_children db (some p) ↔ r ∈ db ∧ r.parent_path = some p) ∧
    ((db.map Row.path).Nodup → ∀ parent, (get_children db parent).Nodup) := by
  refine ⟨?_, ?_, ?_⟩
  · show r ∈ List.insertionSort childLe (db.filter (fun r0 => rootVisible db r0)) ↔ _
    rw [(List.perm_insertionSort childLe _).mem_iff, List.mem_filter]
    constructor
    · rintro ⟨hmem, hvis⟩
      refine ⟨hmem, ?_⟩
      cases hp : r.parent_path with
      | none => exact Or.inl rfl
      | some pp =>
        right
        rw [rootVisible_some hp, Bool.not_eq_eq_eq_not, Bool.not_true, List.any_eq_false]
          at hvis
        intro r2 hr2 hcontra
        exact hvis r2 hr2 (by simp [Option.some.inj hcontra])
    · rintro ⟨hmem, hcond⟩
      refine ⟨hmem, ?_⟩
      cases hp : r.parent_path with
      | none => exact rootVisible_none hp
      | some pp =>
        rcases hcond with hnone | hall
        · rw [hp] at hnone; cases hnone
        · rw [rootVisible_some hp, Bool.not_eq_eq_eq_not, Bool.not_true, List.any_eq_false]
          intro r2 hr2
          simp only [beq_iff_eq]
          intro hpeq
          exact hall r2 hr2 (by rw [hp, hpeq])
  · intro p
    show r ∈ List.insertionSort childLe (db.filter (fun r0 => r0.parent_path == some p)) ↔ _
    rw [(List.perm_insertionSort childLe _).mem_iff, List.mem_filter]
    simp [beq_iff_eq]
  · intro hnd parent
    have hdbnd : db.Nodup := hnd.of_map
    cases parent with
    | none =>
      exact ((List.perm_insertionSort childLe _).nodup_iff).mpr
        (hdbnd.filter (fun r0 => rootVisible db r0))
    | some p =>
      exact ((List.perm_insertionSort childLe _).nodup_iff).mpr
        (hdbnd.filter (fun r0 => r0.parent_path == some p))

/-- C4 witness: the orphan row `c4OrphanRow`, whose stored parent path
matches no row, is returned by the `None`-parent listing of the
single-row database. -/
theorem c4_witness : c4OrphanRow ∈ get_children [c4OrphanRow] none :=
  (c4_get_children_membership [c4OrphanRow] c4OrphanRow).1.mpr
    ⟨by decide, Or.inr (by decide)⟩

/-! ## Theorems: query engine (claims C5, C7, C8) -/

theorem lexLe_total : ∀ (a b : List Char), lexLe a b = true ∨ lexLe b a = true := by
  intro a
  induction a with
  | nil => intro b; left; cases b <;> rfl
  | cons x xs ih =>
    intro b
    cases b with
    | nil => right; rfl
    | cons y ys =>
      show (if x.toNat < y.toNat then true
        else if y.toNat < x.toNat then false else lexLe xs ys) = true ∨
        (if y.toNat < x.toNat then true
        else if x.toNat < y.toNat then false else lexLe ys xs) = true
      by_cases h1 : x.toNat < y.toNat
      · left; rw [if_pos h1]
      · by_cases h2 : y.toNat < x.toNat
        · right; rw [if_pos h2]
        · rcases ih ys with h | h
          · left; rw [if_neg h1, if_neg h2]; exact h
          · right; rw [if_neg h2, if_neg h1]; exact h

theorem lexLe_trans :
    ∀ (a b c : List Char), lexLe a b = true → lexLe b c = true → lexLe a c = true := by
  intro a
  induction a with
  | nil => intro b c _ _; cases c <;> rfl
  | cons x xs ih =>
    intro b c h1 h2
    cases b with
    | nil => exact absurd h1 (by simp [lexLe])
    | cons y ys =>
      cases c with
      | nil => exact absurd h2 (by simp [lexLe])
      | cons z zs =>
        have h1' : (if x.toNat < y.toNat then true
          else if y.toNat < x.toNat then false else lexLe xs ys) = true := h1
        have h2' : (if y.toNat < z.toNat then true
          else if z.toNat < y.toNat then false else lexLe ys zs) = true := h2
        show (if x.toNat < z.toNat then true
          else if z.toNat < x.toNat then false else lexLe xs zs) = true
        by_cases hxy : x.toNat < y.toNat
        · by_cases hyz : y.toNat < z.toNat
          · rw [if_pos (by omega)]
          · by_cases hzy : z.toNat < y.toNat
            · rw [if_neg hyz, if_pos hzy] at h2'; exact absurd h2' (by simp)
            · rw [if_pos (by omega)]
        · by_cases hyx : y.toNat < x.toNat
          · rw [if_neg hxy, if_pos hyx] at h1'; exact absurd h1' (by simp)
          · rw [if_neg hxy, if_neg hyx] at h1'
            by_cases hyz : y.toNat < z.toNat
            · rw [if_pos (by omega)]
            · by_cases hzy : z.toNat < y.toNat
              · rw [if_neg hyz, if_pos hzy] at h2'; exact absurd h2' (by simp)
              · rw [if_neg hyz, if_neg hzy] at h2'
                rw [if_neg (by omega), if_neg (by omega)]
                exact ih ys zs h1' h2'

theorem resultOrder_total : ∀ (a b : SearchResult), resultOrder a b ∨ resultOrder b a := by
  intro a b
  unfold resultOrder resultLE
  rcases lt_trichotomy a.score b.score with h | h | h
  · right; simp [h]
  · rcases lexLe_total a.name.data b.name.data with hl | hl
    · left; simp [h, hl]
    · right; simp [h, hl]
  · left; simp [h]

theorem resultOrder_trans :
    ∀ (a b c : SearchResult), resultOrder a b → resultOrder b c → resultOrder a c := by
  intro a b c h1 h2
  unfold resultOrder resultLE at h1 h2 ⊢
  simp only [Bool.or_eq_true, Bool.and_eq_true, decide_eq_true_eq] at h1 h2 ⊢
  rcases h1 with h1 | ⟨h1e, h1n⟩
  · rcases h2 with h2 | ⟨h2e, h2n⟩
    · left; omega
    · left; omega
  · rcases h2 with h2 | ⟨h2e, h2n⟩
    · left; omega
    · right; exact ⟨by omega, lexLe_trans _ _ _ h1n h2n⟩

theorem isPrefixOf_self (l : List Char) : l.isPrefixOf l = true := by
  induction l with
  | nil => rfl
  | cons c rest ih =>
    show (c == c && rest.isPrefixOf rest) = true
    simp [ih]

theorem strContainsSub_self (s : String) : strContainsSub s s = true := by
  unfold strContainsSub
  cases hd : s.data with
  | nil => rfl
  | cons c rest =>
    show ((c :: rest).isPrefixOf (c :: rest) || listContains (c :: rest) rest) = true
    rw [isPrefixOf_self]
    rfl

theorem compute_score_eq_specScore :
    ∀ (name path query : String) (is_dir : Bool),
      compute_score name path query is_dir = specScore name path query is_dir := by
  intro name path query d
  by_cases hq : query = ""
  · simp [compute_score, specScore, hq]
  · unfold compute_score specScore
    rw [if_neg hq, if_neg hq]
    dsimp only
    by_cases hA : lowerStr name = lowerStr query <;>
      by_cases hB : strStartsWith (lowerStr name) (lowerStr query) = true <;>
        by_cases hC : strContainsSub (lowerStr name) (lowerStr query) = true <;>
          by_cases hD : strContainsSub (lowerStr path) (lowerStr query) = true <;>
            by_cases hE : name.utf8ByteSize < 20 <;>
              cases d <;>
                simp [hA, hB, hC, hD, hE, strContainsSub_self]

theorem mem_runSearch_core {f : SearchFilter} {db : List Row} {r : SearchResult}
    (h : r ∈ runSearch f db) :
    0 < r.score ∧ ∃ row, row ∈ db ∧ rowPred f row = true ∧
      r.name = row.name ∧ r.path = row.path ∧ r.is_dir = row.is_dir ∧
      (f.regex_pattern.isNone = true →
        r.score = compute_score row.name row.path (scoreQuery f) row.is_dir) ∧
      (∀ re, f.regex_pattern = some re →
        r.score = (if re.test r.name = true then (50 : Int) else 10) ∧
        (re.test r.name || re.test r.path) = true) := by
  unfold runSearch at h
  by_cases hempty : (f.file_name.isNone && f.directory_name.isNone &&
      f.regex_pattern.isNone && f.plain_text.isNone) = true
  · rw [if_pos hempty] at h
    cases h
  · rw [if_neg hempty] at h
    dsimp only at h
    rw [(List.perm_insertionSort resultOrder _).mem_iff, List.mem_filter] at h
    obtain ⟨hmem, hposb⟩ := h
    have hpos : 0 < r.score := by simpa using hposb
    refine ⟨hpos, ?_⟩
    cases hre : f.regex_pattern with
    | none =>
      rw [hre] at hmem
      have hmem' : r ∈ ((db.filter (rowPred f)).take 500).map (mkResult db (scoreQuery f)) :=
        hmem
      obtain ⟨row, hrow, hmk⟩ := List.mem_map.mp hmem'
      obtain ⟨hrowdb, hrowpred⟩ := List.mem_filter.mp (List.mem_of_mem_take hrow)
      refine ⟨row, hrowdb, hrowpred, ?_, ?_, ?_, ?_, ?_⟩
      · rw [← hmk]; rfl
      · rw [← hmk]; rfl
      · rw [← hmk]; rfl
      · intro _; rw [← hmk]; rfl
      · intro re hcontra
        exact Option.noConfusion hcontra
    | some re =>
      rw [hre] at hmem
      have hmem' : r ∈ ((((db.filter (rowPred f)).take 500).map
          (mkResult db (scoreQuery f))).filter
            (fun (r0 : SearchResult) => re.test r0.name || re.test r0.path)).map
          (fun (r0 : SearchResult) =>
            { r0 with score := if re.test r0.name then 50 else 10 }) := hmem
      obtain ⟨r1, hr1, hover⟩ := List.mem_map.mp hmem'
      obtain ⟨hr1s, hg⟩ := List.mem_filter.mp hr1
      obtain ⟨row, hrow, hmk⟩ := List.mem_map.mp hr1s
      obtain ⟨hrowdb, hrowpred⟩ := List.mem_filter.mp (List.mem_of_mem_take hrow)
      have hname : r.name = row.name := by rw [← hover, ← hmk]; rfl
      have hpath : r.path = row.path := by rw [← hover, ← hmk]; rfl
      have hdir : r.is_dir = row.is_dir := by rw [← hover, ← hmk]; rfl
      refine ⟨row, hrowdb, hrowpred, hname, hpath, hdir, ?_, ?_⟩
      · intro hcontra
        simp at hcontra
      · intro re2 hre2
        cases Option.some.inj hre2
        constructor
        · rw [← hover]
        · rw [← hover]
          exact hg

theorem runSearch_sorted (f : SearchFilter) (db : List Row) :
    List.Pairwise resultOrder (runSearch f db) := by
  unfold runSearch
  split
  · exact List.Pairwise.nil
  · haveI : IsTotal SearchResult resultOrder := ⟨resultOrder_total⟩
    haveI : IsTrans SearchResult resultOrder := ⟨fun a b c => resultOrder_trans a b c⟩
    exact List.sorted_insertionSort resultOrder _

/-- C5: for every non-regex search each returned entry's score equals the
spec's reference scorer `specScore` — exactly one base score of
+100/+50/+30/+10, +5 for a short containing name, +1 for a matching file —
evaluated at the entry's own name, path and kind against the effective score
query; zero-score entries are removed (every returned score is positive);
regex searches score 50 when the pattern matches the name and otherwise 10
with the pattern matching only the path; and every result list is sorted by
score descending with ties broken by name ascending. -/
theorem c5_search_scoring :
    (∀ (name path query : String) (is_dir : Bool),
      compute_score name path query is_dir = specScore name path query is_dir) ∧
    (∀ (compile : String → Option Reg) (db : List Row) (query : String) (r : SearchResult),
      (parse_search_query compile query).regex_pattern.isNone = true →
      r ∈ search_db compile db query →
      0 < r.score ∧
      r.score = specScore r.name r.path (scoreQuery (parse_search_query compile query))
        r.is_dir) ∧
    (∀ (compile : String → Option Reg) (db : List Row) (query : String) (re : Reg)
        (r : SearchResult),
      (parse_search_query compile query).regex_pattern = some re →
      r ∈ search_db compile db query →
      r.score = (if re.test r.name = true then (50 : Int) else 10) ∧
      (re.test r.name || re.test r.path) = true) ∧
    (∀ (compile : String → Option Reg) (db : List Row) (query : String),
      List.Pairwise resultOrder (search_db compile db query)) := by
  refine ⟨compute_score_eq_specScore, ?_, ?_, ?_⟩
  · intro compile db query r hnone hmem
    obtain ⟨hpos, row, _, _, hname, hpath, hdir, hscore, _⟩ := mem_runSearch_core hmem
    refine ⟨hpos, ?_⟩
    rw [hname, hpath, hdir, hscore hnone]
    exact compute_score_eq_specScore row.name row.path _ row.is_dir
  · intro compile db query re r hre hmem
    obtain ⟨_, row, _, _, _, _, _, _, hrx⟩ := mem_runSearch_core hmem
    exact hrx re hre
  · intro compile db query
    exact runSearch_sorted _ _

/-- C5 witness: the scoring part of the theorem applied to the plain query
`app` over a one-row table, whose single result is `c5Result` with score
56 = 50 (name starts with query) + 5 (short containing name) + 1 (file). -/
theorem c5_witness :
    0 < c5Result.score ∧
    c5Result.score = specScore c5Result.name c5Result.path
      (scoreQuery (parse_search_query compileNone "app")) c5Result.is_dir :=
  c5_search_scoring.2.1 compileNone [c5Row] "app" c5Result (by decide) (by decide)

/-- C7: when the query's remaining (non-`file:`/`dir:`) text contains regex
metacharacters but the case-insensitive pattern built from it does not
compile, search does not fail: the parsed filter carries no regex and keeps
the original literal text as a plain substring filter, and the search result
equals the plain-substring pipeline on that literal text. -/
theorem c7_regex_fallback (compile : String → Option Reg) (db : List Row) (query : String)
    (hmeta : hasRegexMeta (remainingText query) = true)
    (hcompile : compile ("(?i)" ++ remainingText query) = none) :
    (parse_search_query compile query).regex_pattern = none ∧
    (parse_search_query compile query).plain_text = some (remainingText query) ∧
    search_db compile db query =
      runSearch
        { file_name := fileToken query
          directory_name := dirToken query
          regex_pattern := none
          plain_text := some (remainingText query) } db := by
  have hne : (remainingText query).data.isEmpty = false := by
    cases hd : (remainingText query).data with
    | nil =>
      have hfalse : hasRegexMeta (remainingText query) = false := by
        unfold hasRegexMeta
        rw [hd]
        rfl
      rw [hfalse] at hmeta
      cases hmeta
    | cons c cs => rfl
  have hparse : parse_search_query compile query =
      { file_name := fileToken query
        directory_name := dirToken query
        regex_pattern := none
        plain_text := some (remainingText query) } := by
    unfold parse_search_query
    dsimp only
    simp [hne, hmeta, hcompile]
  refine ⟨by rw [hparse], by rw [hparse], ?_⟩
  unfold search_db
  rw [hparse]

/-- C7 witness: the fallback theorem applied to the malformed regex literal
`[invalid` with a compiler that rejects it. -/
theorem c7_witness :
    (parse_search_query compileNone "[invalid").regex_pattern = none ∧
    (parse_search_query compileNone "[invalid").plain_text =
      some (remainingText "[invalid") ∧
    search_db compileNone [] "[invalid" =
      runSearch
        { file_name := fileToken "[invalid"
          directory_name := dirToken "[invalid"
          regex_pattern := none
          plain_text := some (remainingText "[invalid") } [] :=
  c7_regex_fallback compileNone [] "[invalid" (by decide) rfl

/-- C8: for every query carrying both a `file:X` and a `dir:Y` token, every
search result is a non-directory entry whose name contains X
case-insensitively and whose lowercased path contains the enclosed segment
`/y/` (a substring match against the path, not an ancestor check);
directory rows named like Y are excluded since only `is_dir = 0` rows
pass. -/
theorem c8_file_dir_combined (compile : String → Option Reg) (db : List Row)
    (query x y : String) (r : SearchResult)
    (hfx : fileToken query = some x) (hfy : dirToken query = some y)
    (hmem : r ∈ search_db compile db query) :
    r.is_dir = false ∧
    strContainsSub (lowerStr r.name) (lowerStr x) = true ∧
    strContainsSub (lowerStr r.path) ("/" ++ lowerStr y ++ "/") = true := by
  obtain ⟨_, row, _, hpred, hname, hpath, hdir, _, _⟩ := mem_runSearch_core hmem
  have hf : (parse_search_query compile query).file_name = some x := hfx
  have hd : (parse_search_query compile query).directory_name = some y := hfy
  unfold rowPred searchConditions at hpred
  rw [hf, hd] at hpred
  simp only [List.all_append, List.all_cons, List.all_nil, Bool.and_eq_true,
    Bool.not_eq_true'] at hpred
  rw [hname, hpath, hdir]
  tauto

/-- C8 witness: the theorem applied to the query `file:main dir:src` over a
one-row table holding `/a/src/Main.rs`. -/
theorem c8_witness :
    c8Result.is_dir = false ∧
    strContainsSub (lowerStr c8Result.name) (lowerStr "main") = true ∧
    strContainsSub (lowerStr c8Result.path) ("/" ++ lowerStr "src" ++ "/") = true :=
  c8_file_dir_combined compileNone [c8Row] "file:main dir:src" "main" "src" c8Result
    (by decide) (by decide) (by decide)
